import Mathlib

/-!
Verification development for the multithreaded DJ BPM-estimation program.

The pipeline in src/main.cpp is embedded shallowly over exact rationals:
samples, envelopes and thresholds are `ℚ` (abstracting float rounding),
peak indices are `ℕ`, and vector indexing is `List.getD` with default 0.
Each definition mirrors the corresponding C++ function.
-/

namespace DJ

/-- The local-maximum-plus-threshold test of detectPeaks at index i
(`signal[i] > signal[i-1] && signal[i] > signal[i+1] && signal[i] > threshold`). -/
abbrev peakCond (signal : List ℚ) (threshold : ℚ) (i : ℕ) : Prop :=
  signal.getD i 0 > signal.getD (i - 1) 0 ∧
  signal.getD i 0 > signal.getD (i + 1) 0 ∧
  signal.getD i 0 > threshold

/-- One iteration of the detectPeaks loop body: the accepted-peaks list is
extended with i when the peak test holds and the refractory-gap test
(`peaks.empty() || (i - peaks.back()) > minGap`) passes. -/
def peakStep (signal : List ℚ) (threshold : ℚ) (minGap : ℕ)
    (peaks : List ℕ) (i : ℕ) : List ℕ :=
  if peakCond signal threshold i then
    if peaks = [] ∨ i - peaks.getLastD 0 > minGap then peaks ++ [i] else peaks
  else peaks

/-- `detectPeaks` from src/main.cpp: scan i from 1 while `i < signal.size() - 1`,
accumulating peaks via `peakStep`. -/
def detectPeaks (signal : List ℚ) (threshold : ℚ) (minGap : ℕ) : List ℕ :=
  (List.range' 1 (signal.length - 1 - 1)).foldl (peakStep signal threshold minGap) []

/-- The loop accumulating `totalTimeBetweenPeaks` in calculateBpm:
sum over i = 1 .. |peaks|-1 of `(peaks[i] - peaks[i-1]) / sampleRate`
(int subtraction, then division as reals). -/
def interSum (peaks : List ℕ) (sampleRate : ℕ) : ℚ :=
  ((List.range' 1 (peaks.length - 1)).map
    (fun i => (((peaks.getD i 0 : ℤ) - (peaks.getD (i - 1) 0 : ℤ) : ℤ) : ℚ)
      / (sampleRate : ℚ))).sum

/-- `avgTimeBetweenPeaks` in calculateBpm: the total divided by `peaks.size() - 1`. -/
def avgInterval (peaks : List ℕ) (sampleRate : ℕ) : ℚ :=
  interSum peaks sampleRate / ((peaks.length - 1 : ℕ) : ℚ)

/-- `calculateBpm` from src/main.cpp: 0 when fewer than 2 peaks, otherwise
`60 / avgTimeBetweenPeaks`. -/
def calculateBpm (peaks : List ℕ) (sampleRate : ℕ) : ℚ :=
  if peaks.length < 2 then 0 else 60 / avgInterval peaks sampleRate

/-- The stereo-to-mono block of detectBpm: when `channels > 1`, build a vector of
length `samples.size() / channels` with
`mono[i] = (samples[i*channels] + samples[i*channels + 1]) / 2`; otherwise the
samples are left untouched. -/
def monoMix (samples : List ℚ) (channels : ℕ) : List ℚ :=
  if channels > 1 then
    (List.range (samples.length / channels)).map
      (fun i => (samples.getD (i * channels) 0 + samples.getD (i * channels + 1) 0) / 2)
  else samples

/-- The rectification loop of detectBpm: `envelope[i] = std::abs(samples[i])`. -/
def rectify (samples : List ℚ) : List ℚ :=
  samples.map (fun x => |x|)

/-- The in-place smoothing loop of detectBpm, run from index 1 forward:
each output value is `0.1 * current + 0.9 * previousOutput`, where `prev` is the
already-smoothed previous element. -/
def smoothFrom (prev : ℚ) : List ℚ → List ℚ
  | [] => []
  | x :: xs => (1/10 * x + 9/10 * prev) :: smoothFrom (1/10 * x + 9/10 * prev) xs

/-- The envelope built by detectBpm: rectify, then smooth in place starting at
index 1 (element 0 stays `|samples[0]|`). -/
def envelope (samples : List ℚ) : List ℚ :=
  match rectify samples with
  | [] => []
  | e0 :: rest => e0 :: smoothFrom e0 rest

/-- The per-file analysis body of detectBpm after a successful decode:
mono mix, envelope, peak detection with threshold 0.05 and gap 500, then
`calculateBpm(peaks, samplerate) / 35`. -/
def pipelineBpm (samples : List ℚ) (channels : ℕ) (samplerate : ℕ) : ℚ :=
  calculateBpm (detectPeaks (envelope (monoMix samples channels)) (1/20) 500) samplerate / 35

/-- The error outcomes of detectBpm, one per early-return branch. -/
inductive BpmError
  | NotFound
  | OpenFailed
  | InvalidAudio
  | ReadFailed
deriving DecidableEq, Repr

/-- Abstraction of the external decoder and filesystem as detectBpm observes them:
whether the path exists, whether `sf_open` succeeds, the header fields, the
number of frames actually decoded and the decoded samples. -/
structure DecodeEnv where
  pathOk : Bool
  openOk : Bool
  frames : ℕ
  channels : ℕ
  samplerate : ℕ
  framesRead : ℕ
  samples : List ℚ

/-- The control flow of detectBpm from src/main.cpp: the existence check, the
open check, the zero-frames/zero-channels check and the short-read check, in
program order, each ending the analysis; otherwise the pipeline BPM is produced. -/
def analyze (env : DecodeEnv) : Except BpmError ℚ :=
  if env.pathOk = false then .error .NotFound
  else if env.openOk = false then .error .OpenFailed
  else if env.frames = 0 ∨ env.channels = 0 then .error .InvalidAudio
  else if env.framesRead ≠ env.frames then .error .ReadFailed
  else .ok (pipelineBpm env.samples env.channels env.samplerate)

/-- Modelled from the spec (§4.4): the arithmetic mean of (P[i] − P[i−1])/R over
i = 1…|P|−1, written independently of `calculateBpm` for comparison. -/
def specMeanInterval (peaks : List ℕ) (sampleRate : ℕ) : ℚ :=
  (((List.range (peaks.length - 1)).map
    (fun j => (((peaks.getD (j + 1) 0 : ℤ) - (peaks.getD j 0 : ℤ) : ℤ) : ℚ)
      / (sampleRate : ℚ))).sum) / ((peaks.length - 1 : ℕ) : ℚ)

/-- The refractory-gap test of the spec scan, phrased on the last accepted peak:
vacuously true when no peak has been accepted yet. -/
def gapOk (minGap : ℕ) (i : ℕ) : Option ℕ → Prop
  | none => True
  | some l => i - l > minGap

instance decGapOk (minGap i : ℕ) : (o : Option ℕ) → Decidable (gapOk minGap i o)
  | none => .isTrue trivial
  | some l => Nat.decLt minGap (i - l)

/-- Modelled from the spec (§4.3): the scan that includes i exactly when the
strict-maximum, threshold and gap conditions hold, carrying the last accepted
index; `fuel` counts the remaining indices to visit. -/
def scanSpecFrom (e : List ℚ) (T : ℚ) (G : ℕ) : ℕ → ℕ → Option ℕ → List ℕ
  | 0, _, _ => []
  | fuel + 1, i, lastAcc =>
    if peakCond e T i ∧ gapOk G i lastAcc then
      i :: scanSpecFrom e T G fuel (i + 1) (some i)
    else
      scanSpecFrom e T G fuel (i + 1) lastAcc

/-- Modelled from the spec (§4.3): scan i from 1 to N−2 with no peak accepted yet. -/
def scanSpec (e : List ℚ) (T : ℚ) (G : ℕ) : List ℕ :=
  scanSpecFrom e T G (e.length - 1 - 1) 1 none

/-- Largest absolute sample value, used to state the spec's scaling precondition. -/
def maxAbs (s : List ℚ) : ℚ :=
  (s.map (fun x => |x|)).foldr max 0

/-- Largest envelope value, used to state the spec's scaling precondition. -/
def maxEnv (s : List ℚ) : ℚ :=
  (envelope s).foldr max 0

end DJ

namespace Copy2

/-- The same peak test in the second copy, src/src/main.cpp. -/
abbrev peakCond (signal : List ℚ) (threshold : ℚ) (i : ℕ) : Prop :=
  signal.getD i 0 > signal.getD (i - 1) 0 ∧
  signal.getD i 0 > signal.getD (i + 1) 0 ∧
  signal.getD i 0 > threshold

/-- Loop body of detectPeaks in src/src/main.cpp. -/
def peakStep (signal : List ℚ) (threshold : ℚ) (minGap : ℕ)
    (peaks : List ℕ) (i : ℕ) : List ℕ :=
  if peakCond signal threshold i then
    if peaks = [] ∨ i - peaks.getLastD 0 > minGap then peaks ++ [i] else peaks
  else peaks

/-- `detectPeaks` from src/src/main.cpp. -/
def detectPeaks (signal : List ℚ) (threshold : ℚ) (minGap : ℕ) : List ℕ :=
  (List.range' 1 (signal.length - 1 - 1)).foldl (peakStep signal threshold minGap) []

/-- Sum of inter-peak times in calculateBpm of src/src/main.cpp. -/
def interSum (peaks : List ℕ) (sampleRate : ℕ) : ℚ :=
  ((List.range' 1 (peaks.length - 1)).map
    (fun i => (((peaks.getD i 0 : ℤ) - (peaks.getD (i - 1) 0 : ℤ) : ℤ) : ℚ)
      / (sampleRate : ℚ))).sum

/-- `avgTimeBetweenPeaks` in calculateBpm of src/src/main.cpp. -/
def avgInterval (peaks : List ℕ) (sampleRate : ℕ) : ℚ :=
  interSum peaks sampleRate / ((peaks.length - 1 : ℕ) : ℚ)

/-- `calculateBpm` from src/src/main.cpp. -/
def calculateBpm (peaks : List ℕ) (sampleRate : ℕ) : ℚ :=
  if peaks.length < 2 then 0 else 60 / avgInterval peaks sampleRate

/-- Stereo-to-mono block of detectBpm in src/src/main.cpp. -/
def monoMix (samples : List ℚ) (channels : ℕ) : List ℚ :=
  if channels > 1 then
    (List.range (samples.length / channels)).map
      (fun i => (samples.getD (i * channels) 0 + samples.getD (i * channels + 1) 0) / 2)
  else samples

/-- Rectification loop of detectBpm in src/src/main.cpp. -/
def rectify (samples : List ℚ) : List ℚ :=
  samples.map (fun x => |x|)

/-- Smoothing loop of detectBpm in src/src/main.cpp. -/
def smoothFrom (prev : ℚ) : List ℚ → List ℚ
  | [] => []
  | x :: xs => (1/10 * x + 9/10 * prev) :: smoothFrom (1/10 * x + 9/10 * prev) xs

/-- Envelope construction of detectBpm in src/src/main.cpp. -/
def envelope (samples : List ℚ) : List ℚ :=
  match rectify samples with
  | [] => []
  | e0 :: rest => e0 :: smoothFrom e0 rest

/-- Per-file analysis body of detectBpm in src/src/main.cpp. -/
def pipelineBpm (samples : List ℚ) (channels : ℕ) (samplerate : ℕ) : ℚ :=
  calculateBpm (detectPeaks (envelope (monoMix samples channels)) (1/20) 500) samplerate / 35

end Copy2

namespace DJ

/-! ### Helper lemmas about the embedded pipeline -/

lemma getD_map_range (n : ℕ) (f : ℕ → ℚ) (i : ℕ) (h : i < n) :
    ((List.range n).map f).getD i 0 = f i := by
  have hlen : i < ((List.range n).map f).length := by simpa using h
  rw [List.getD_eq_getElem _ _ hlen]
  simp

lemma smoothFrom_length (p : ℚ) (l : List ℚ) : (smoothFrom p l).length = l.length := by
  induction l generalizing p with
  | nil => rfl
  | cons x xs ih => simp [smoothFrom, ih]

lemma envelope_length (s : List ℚ) : (envelope s).length = s.length := by
  cases s with
  | nil => rfl
  | cons x xs => simp [envelope, rectify, smoothFrom_length]

lemma getD_rectify (l : List ℚ) (j : ℕ) : (rectify l).getD j 0 = |l.getD j 0| := by
  induction l generalizing j with
  | nil => simp [rectify]
  | cons x xs ih =>
    cases j with
    | zero => simp [rectify]
    | succ j' => simpa [rectify] using ih j'

lemma smoothFrom_getD_rec (l : List ℚ) :
    ∀ (p : ℚ) (j : ℕ), j + 1 < l.length →
      (smoothFrom p l).getD (j + 1) 0
        = 1/10 * l.getD (j + 1) 0 + 9/10 * (smoothFrom p l).getD j 0 := by
  induction l with
  | nil => intro p j h; simp at h
  | cons x xs ih =>
    intro p j h
    cases j with
    | zero =>
      cases xs with
      | nil => simp at h
      | cons y ys => simp [smoothFrom]
    | succ j' =>
      have h' : j' + 1 < xs.length := by simpa using h
      simpa [smoothFrom] using ih (1/10 * x + 9/10 * p) j' h'

lemma smoothFrom_nonneg (l : List ℚ) :
    ∀ (p : ℚ), 0 ≤ p → (∀ x ∈ l, 0 ≤ x) → ∀ q ∈ smoothFrom p l, 0 ≤ q := by
  induction l with
  | nil => intro p _ _ q hq; simp [smoothFrom] at hq
  | cons x xs ih =>
    intro p hp hl q hq
    have hx : 0 ≤ x := hl x (by simp)
    have hv : 0 ≤ 1/10 * x + 9/10 * p := by positivity
    rcases List.mem_cons.mp hq with rfl | hq'
    · exact hv
    · exact ih _ hv (fun y hy => hl y (by simp [hy])) q hq'

lemma envelope_nonneg (s : List ℚ) : ∀ q ∈ envelope s, 0 ≤ q := by
  cases s with
  | nil => intro q hq; simp [envelope, rectify] at hq
  | cons x xs =>
    intro q hq
    have hrect : ∀ y ∈ rectify xs, 0 ≤ y := by
      intro y hy
      obtain ⟨z, _, rfl⟩ := List.mem_map.mp hy
      exact abs_nonneg z
    have henv : envelope (x :: xs) = |x| :: smoothFrom |x| (rectify xs) := by
      simp [envelope, rectify]
    rw [henv] at hq
    rcases List.mem_cons.mp hq with rfl | hq'
    · exact abs_nonneg x
    · exact smoothFrom_nonneg (rectify xs) |x| (abs_nonneg x) hrect q hq'

lemma getD_nonneg_of_forall (l : List ℚ) (h : ∀ q ∈ l, 0 ≤ q) (i : ℕ) : 0 ≤ l.getD i 0 := by
  by_cases hi : i < l.length
  · rw [List.getD_eq_getElem _ _ hi]
    exact h _ (List.getElem_mem hi)
  · rw [List.getD_eq_default _ _ (le_of_not_lt hi)]

/-! ### C4, C5, C6, C7 -/

/-- C4: the mono mixer is the identity on 1-channel input, and for 2 or more
channels it produces floor(L/C) samples that each average the first two channels
of the corresponding frame. -/
theorem c4_monoMix (samples : List ℚ) (C : ℕ) :
    (C = 1 → monoMix samples C = samples) ∧
    (2 ≤ C → (monoMix samples C).length = samples.length / C ∧
      ∀ i, i < samples.length / C →
        (monoMix samples C).getD i 0
          = (samples.getD (i * C) 0 + samples.getD (i * C + 1) 0) / 2) := by
  constructor
  · rintro rfl
    simp [monoMix]
  · intro hC
    have h1 : C > 1 := by omega
    refine ⟨by simp [monoMix, h1], ?_⟩
    intro i hi
    simp only [monoMix, if_pos h1]
    rw [getD_map_range _ _ _ hi]

/-- C5: the envelope has the length of its input, starts at the rectified first
sample, obeys the one-pole recurrence e[i] = 0.1|s[i]| + 0.9 e[i-1] for i ≥ 1,
and is non-negative everywhere. -/
theorem c5_envelope (s : List ℚ) (h : 1 ≤ s.length) :
    (envelope s).length = s.length
    ∧ (envelope s).getD 0 0 = |s.getD 0 0|
    ∧ (∀ i, 1 ≤ i → i < s.length →
        (envelope s).getD i 0 = 1/10 * |s.getD i 0| + 9/10 * (envelope s).getD (i - 1) 0)
    ∧ (∀ i, 0 ≤ (envelope s).getD i 0) := by
  refine ⟨envelope_length s, ?_, ?_, ?_⟩
  · cases s with
    | nil => simp at h
    | cons x xs => simp [envelope, rectify]
  · intro i h1 hi
    cases s with
    | nil => simp at hi
    | cons x xs =>
      have henv : envelope (x :: xs) = |x| :: smoothFrom |x| (rectify xs) := by
        simp [envelope, rectify]
      rw [henv]
      cases i with
      | zero => omega
      | succ i' =>
        cases i' with
        | zero =>
          cases xs with
          | nil => simp at hi
          | cons y ys => simp [rectify, smoothFrom]
        | succ i'' =>
          have hlt : i'' + 1 < (rectify xs).length := by
            simp only [rectify, List.length_map]
            simpa using hi
          have hrec := smoothFrom_getD_rec (rectify xs) |x| i'' hlt
          have hidx : i'' + 1 + 1 - 1 = i'' + 1 := rfl
          simp only [hidx, List.getD_cons_succ]
          rw [hrec, getD_rectify]
  · intro i
    exact getD_nonneg_of_forall _ (envelope_nonneg s) i

/-- C6: detectBpm classifies failures in program order — missing file, failed
open, zero frames or channels, short read — and otherwise yields the pipeline
BPM; a failure never yields a BPM. -/
theorem c6_analyze (env : DecodeEnv) :
    (env.pathOk = false → analyze env = .error .NotFound)
    ∧ (env.pathOk = true → env.openOk = false → analyze env = .error .OpenFailed)
    ∧ (env.pathOk = true → env.openOk = true → (env.frames = 0 ∨ env.channels = 0) →
        analyze env = .error .InvalidAudio)
    ∧ (env.pathOk = true → env.openOk = true → env.frames ≠ 0 → env.channels ≠ 0 →
        env.framesRead ≠ env.frames → analyze env = .error .ReadFailed)
    ∧ (env.pathOk = true → env.openOk = true → env.frames ≠ 0 → env.channels ≠ 0 →
        env.framesRead = env.frames →
        analyze env = .ok (pipelineBpm env.samples env.channels env.samplerate))
    ∧ (∀ err, analyze env = .error err → ∀ b, analyze env ≠ .ok b) := by
  refine ⟨?_, ?_, ?_, ?_, ?_, ?_⟩
  · intro h1
    simp [analyze, h1]
  · intro h1 h2
    simp [analyze, h1, h2]
  · intro h1 h2 h3
    rcases h3 with h3 | h3 <;> simp [analyze, h1, h2, h3]
  · intro h1 h2 h3 h4 h5
    simp [analyze, h1, h2, h3, h4, h5]
  · intro h1 h2 h3 h4 h5
    simp [analyze, h1, h2, h3, h4, h5]
  · intro err herr b hb
    rw [herr] at hb
    exact Except.noConfusion hb

/-- C7: with fewer than two peaks the estimator returns exactly 0, and the
facade then reports a BPM of exactly 0. -/
theorem c7_fewPeaks (peaks : List ℕ) (R : ℕ) (h : peaks.length < 2)
    (samples : List ℚ) (C sr : ℕ)
    (hp : (detectPeaks (envelope (monoMix samples C)) (1/20) 500).length < 2) :
    calculateBpm peaks R = 0 ∧ pipelineBpm samples C sr = 0 := by
  constructor
  · simp [calculateBpm, h]
  · unfold pipelineBpm calculateBpm
    rw [if_pos hp]
    norm_num

/-! ### C1, C8, C10, C9 -/

lemma avgInterval_eq_specMean (P : List ℕ) (R : ℕ) :
    avgInterval P R = specMeanInterval P R := by
  unfold avgInterval interSum specMeanInterval
  congr 1
  rw [List.range'_eq_map_range, List.map_map]
  have hfun : ((fun i => (((P.getD i 0 : ℤ) - (P.getD (i - 1) 0 : ℤ) : ℤ) : ℚ) / (R : ℚ))
        ∘ fun x => 1 + x)
      = fun j => (((P.getD (j + 1) 0 : ℤ) - (P.getD j 0 : ℤ) : ℤ) : ℚ) / (R : ℚ) := by
    funext j
    have h1 : 1 + j = j + 1 := Nat.add_comm 1 j
    have h2 : j + 1 - 1 = j := rfl
    simp [Function.comp, h1, h2]
  rw [hfun]

/-- C1: with at least two peaks and a positive sample rate, the estimator
returns 60 divided by the mean inter-peak interval in seconds, and the facade
reports exactly that value divided by 35. -/
theorem c1_bpmFormula (P : List ℕ) (R : ℕ) (_hR : 0 < R) (h2 : 2 ≤ P.length)
    (samples : List ℚ) (C sr : ℕ) :
    calculateBpm P R = 60 / specMeanInterval P R
    ∧ pipelineBpm samples C sr
        = calculateBpm (detectPeaks (envelope (monoMix samples C)) (1/20) 500) sr / 35 := by
  constructor
  · rw [calculateBpm, if_neg (by omega), avgInterval_eq_specMean]
  · rfl

/-- C8: for a strictly increasing peak list of length at least 2 and a positive
sample rate, every divisor used by calculateBpm — the sample rate, the peak
count minus one, and the mean interval — is nonzero (the mean is positive), and
the unguarded 60-over-mean division is the path actually taken. -/
theorem c8_noDivByZero (P : List ℕ) (R : ℕ) (hR : 0 < R) (h2 : 2 ≤ P.length)
    (hmono : List.Chain' (fun a b => a < b) P) :
    ((R : ℚ) ≠ 0)
    ∧ (((P.length - 1 : ℕ) : ℚ) ≠ 0)
    ∧ 0 < avgInterval P R
    ∧ calculateBpm P R = 60 / avgInterval P R := by
  have hRq : (0 : ℚ) < (R : ℚ) := by exact_mod_cast hR
  have hlen : (0 : ℚ) < ((P.length - 1 : ℕ) : ℚ) := by
    have : 1 ≤ P.length - 1 := by omega
    exact_mod_cast Nat.lt_of_lt_of_le Nat.zero_lt_one this
  have hsum : 0 < interSum P R := by
    unfold interSum
    apply List.sum_pos
    · intro a ha
      obtain ⟨i, hi, rfl⟩ := List.mem_map.mp ha
      have hmem : 1 ≤ i ∧ i < 1 + (P.length - 1) := by
        have := List.mem_range'_1.mp hi
        omega
      have hadj : P.getD (i - 1) 0 < P.getD i 0 := by
        have hgetlt := List.chain'_iff_get.mp hmono (i - 1) (by omega)
        have hg1 : P.get ⟨i - 1, by omega⟩ = P.getD (i - 1) 0 := by
          rw [List.getD_eq_getElem _ _ (by omega : i - 1 < P.length)]
          rfl
        have hg2 : P.get ⟨i - 1 + 1, by omega⟩ = P.getD i 0 := by
          rw [List.getD_eq_getElem _ _ (by omega : i < P.length)]
          simp only [List.get_eq_getElem]
          congr 1
          omega
        rw [hg1, hg2] at hgetlt
        exact hgetlt
      apply div_pos _ hRq
      have : (P.getD (i - 1) 0 : ℤ) < (P.getD i 0 : ℤ) := by exact_mod_cast hadj
      have hz : (0 : ℤ) < (P.getD i 0 : ℤ) - (P.getD (i - 1) 0 : ℤ) := by omega
      exact_mod_cast hz
    · refine List.length_pos.mp ?_
      simp only [List.length_map, List.length_range']
      omega
  refine ⟨ne_of_gt hRq, ne_of_gt hlen, div_pos hsum hlen, ?_⟩
  rw [calculateBpm, if_neg (by omega)]

/-- C10: every index triple touched by the detectPeaks scan is in bounds, a
signal of length at most 2 yields no peaks, and the facade never hands the peak
picker an empty envelope because rejected zero-frame/zero-channel files are the
only way to get one. -/
theorem c10_bounds :
    (∀ (e : List ℚ) (i : ℕ), 1 ≤ e.length → 1 ≤ i → i < e.length - 1 →
      i - 1 < e.length ∧ i < e.length ∧ i + 1 < e.length)
    ∧ (∀ e : List ℚ, e.length ≤ 2 → detectPeaks e (1/20) 500 = [])
    ∧ (∀ (samples : List ℚ) (frames channels : ℕ), 1 ≤ frames → 1 ≤ channels →
        samples.length = frames * channels →
        1 ≤ (envelope (monoMix samples channels)).length) := by
  refine ⟨?_, ?_, ?_⟩
  · intro e i _ h1 h2
    omega
  · intro e he
    have h0 : e.length - 1 - 1 = 0 := by omega
    simp [detectPeaks, h0]
  · intro samples frames channels hf hc hlen
    rw [envelope_length]
    by_cases h : channels > 1
    · simp only [monoMix, if_pos h, List.length_map, List.length_range]
      rw [hlen, Nat.mul_div_cancel frames (by omega)]
      omega
    · have hc1 : channels = 1 := by omega
      simp only [monoMix, if_neg h]
      rw [hlen, hc1]
      omega

lemma copy2_smoothFrom_eq : Copy2.smoothFrom = DJ.smoothFrom := by
  funext p l
  induction l generalizing p with
  | nil => rfl
  | cons x xs ih => simp [Copy2.smoothFrom, DJ.smoothFrom, ih]

lemma copy2_envelope_eq : Copy2.envelope = DJ.envelope := by
  funext s
  cases s with
  | nil => rfl
  | cons x xs =>
    simp [Copy2.envelope, DJ.envelope, Copy2.rectify, DJ.rectify, copy2_smoothFrom_eq]

lemma copy2_pipelineBpm_eq : Copy2.pipelineBpm = DJ.pipelineBpm := by
  funext s c r
  unfold Copy2.pipelineBpm DJ.pipelineBpm
  rw [copy2_envelope_eq]
  rfl

/-- C9: the second source copy implements the same pipeline — its peak picker,
tempo estimator and per-file analysis body are extensionally the functions of
the first copy, so both report identical BPM values on every decoded buffer. -/
theorem c9_copiesAgree :
    Copy2.detectPeaks = DJ.detectPeaks
    ∧ Copy2.calculateBpm = DJ.calculateBpm
    ∧ Copy2.pipelineBpm = DJ.pipelineBpm
    ∧ ∀ (samples : List ℚ) (channels samplerate : ℕ),
        Copy2.pipelineBpm samples channels samplerate
          = DJ.pipelineBpm samples channels samplerate := by
  refine ⟨rfl, rfl, copy2_pipelineBpm_eq, fun s c r => ?_⟩
  rw [copy2_pipelineBpm_eq]

/-! ### C2: the peak picker agrees with the spec scan and satisfies its invariants -/

lemma getLastD_eq_of_getLast? (acc : List ℕ) (l : ℕ) (h : acc.getLast? = some l) :
    acc.getLastD 0 = l := by
  rw [List.getLastD_eq_getLast?, h]
  rfl

lemma foldl_peakStep_eq (e : List ℚ) (T : ℚ) (G : ℕ) :
    ∀ (len i : ℕ) (acc : List ℕ),
      (List.range' i len).foldl (peakStep e T G) acc
        = acc ++ scanSpecFrom e T G len i acc.getLast? := by
  intro len
  induction len with
  | zero =>
    intro i acc
    simp [scanSpecFrom]
  | succ n ih =>
    intro i acc
    rw [List.range'_succ, List.foldl_cons]
    by_cases hp : peakCond e T i
    · by_cases hg : acc = [] ∨ i - acc.getLastD 0 > G
      · have hstep : peakStep e T G acc i = acc ++ [i] := by
          simp only [peakStep]
          rw [if_pos hp, if_pos hg]
        have hgap : gapOk G i acc.getLast? := by
          rcases hg with h | h
          · subst h
            simp [gapOk]
          · cases hl : acc.getLast? with
            | none => trivial
            | some l =>
              have := getLastD_eq_of_getLast? acc l hl
              show i - l > G
              rw [← this]
              exact h
        rw [hstep, ih]
        have hlast : (acc ++ [i]).getLast? = some i := by simp
        rw [hlast]
        conv_rhs => rw [scanSpecFrom]
        rw [if_pos ⟨hp, hgap⟩]
        simp
      · push_neg at hg
        obtain ⟨hne, hle⟩ := hg
        have hstep : peakStep e T G acc i = acc := by
          simp only [peakStep]
          rw [if_pos hp, if_neg (by push_neg; exact ⟨hne, hle⟩)]
        obtain ⟨l, hl⟩ : ∃ l, acc.getLast? = some l := by
          cases hacc : acc.getLast? with
          | none => exact absurd (List.getLast?_eq_none_iff.mp hacc) hne
          | some l => exact ⟨l, rfl⟩
        have hld := getLastD_eq_of_getLast? acc l hl
        rw [hstep, ih]
        conv_rhs => rw [scanSpecFrom]
        rw [if_neg]
        intro hcon
        have : gapOk G i acc.getLast? := hcon.2
        rw [hl] at this
        have hgap : i - l > G := this
        rw [← hld] at hgap
        omega
    · have hstep : peakStep e T G acc i = acc := by
        simp only [peakStep]
        rw [if_neg hp]
      rw [hstep, ih]
      conv_rhs => rw [scanSpecFrom]
      rw [if_neg (fun hcon => hp hcon.1)]

lemma scanSpecFrom_mem (e : List ℚ) (T : ℚ) (G : ℕ) :
    ∀ (len i : ℕ) (lastAcc : Option ℕ) (p : ℕ),
      p ∈ scanSpecFrom e T G len i lastAcc → i ≤ p ∧ p < i + len ∧ peakCond e T p := by
  intro len
  induction len with
  | zero =>
    intro i lastAcc p hp
    simp [scanSpecFrom] at hp
  | succ n ih =>
    intro i lastAcc p hp
    rw [scanSpecFrom] at hp
    split_ifs at hp with h
    · rcases List.mem_cons.mp hp with rfl | hmem
      · exact ⟨le_refl _, by omega, h.1⟩
      · obtain ⟨h1, h2, h3⟩ := ih (i + 1) (some i) p hmem
        exact ⟨by omega, by omega, h3⟩
    · obtain ⟨h1, h2, h3⟩ := ih (i + 1) lastAcc p hp
      exact ⟨by omega, by omega, h3⟩

lemma scanSpecFrom_chain (e : List ℚ) (T : ℚ) (G : ℕ) :
    ∀ (len i : ℕ) (lastAcc : Option ℕ),
      List.Chain' (fun a b => G < b - a) (scanSpecFrom e T G len i lastAcc)
      ∧ (∀ l p, lastAcc = some l →
          (scanSpecFrom e T G len i lastAcc).head? = some p → G < p - l) := by
  intro len
  induction len with
  | zero =>
    intro i lastAcc
    constructor
    · simp [scanSpecFrom]
    · intro l p _ hp
      simp [scanSpecFrom] at hp
  | succ n ih =>
    intro i lastAcc
    constructor
    · rw [scanSpecFrom]
      split_ifs with h
      · refine List.chain'_cons'.mpr ⟨?_, (ih (i + 1) (some i)).1⟩
        intro b hb
        exact (ih (i + 1) (some i)).2 i b rfl hb
      · exact (ih (i + 1) lastAcc).1
    · intro l p hl hp
      rw [scanSpecFrom] at hp
      split_ifs at hp with h
      · rw [List.head?_cons, Option.some_inj] at hp
        subst hp
        subst hl
        exact h.2
      · exact (ih (i + 1) lastAcc).2 l p hl hp

/-- C2: detectPeaks with threshold 0.05 and gap 500 is exactly the spec's scan
over indices 1..N−2; every returned index is in that range and satisfies the
strict local-maximum and threshold tests, and consecutive accepted peaks are
strictly increasing with gaps exceeding 500. -/
theorem c2_detectPeaks (e : List ℚ) (h : 1 ≤ e.length) :
    detectPeaks e (1/20) 500 = scanSpec e (1/20) 500
    ∧ (∀ p ∈ detectPeaks e (1/20) 500,
        1 ≤ p ∧ p + 1 ≤ e.length - 1
        ∧ e.getD p 0 > e.getD (p - 1) 0
        ∧ e.getD p 0 > e.getD (p + 1) 0
        ∧ e.getD p 0 > 1/20)
    ∧ List.Chain' (fun a b => a < b ∧ 500 < b - a) (detectPeaks e (1/20) 500) := by
  have heq : detectPeaks e (1/20) 500 = scanSpec e (1/20) 500 := by
    unfold detectPeaks scanSpec
    rw [foldl_peakStep_eq]
    simp
  refine ⟨heq, ?_, ?_⟩
  · intro p hp
    rw [heq] at hp
    obtain ⟨h1, h2, h3⟩ := scanSpecFrom_mem e (1/20) 500 (e.length - 1 - 1) 1 none p hp
    exact ⟨h1, by omega, h3.1, h3.2.1, h3.2.2⟩
  · rw [heq]
    have hc := (scanSpecFrom_chain e (1/20) 500 (e.length - 1 - 1) 1 none).1
    exact hc.imp (fun a b hab => ⟨by omega, hab⟩)

/-! ### C3: behaviour of the pipeline under scaling of the input -/

lemma getD_map_mul (k : ℚ) (l : List ℚ) (i : ℕ) :
    (l.map (fun x => k * x)).getD i 0 = k * l.getD i 0 := by
  induction l generalizing i with
  | nil => simp
  | cons x xs ih =>
    cases i with
    | zero => simp
    | succ j => simpa using ih j

lemma peakStep_map_mul (e : List ℚ) (k : ℚ) (hk : 0 < k)
    (hth : ∀ i, ((1:ℚ)/20 < e.getD i 0 ↔ (1:ℚ)/20 < k * e.getD i 0))
    (acc : List ℕ) (i : ℕ) :
    peakStep (e.map (fun x => k * x)) (1/20) 500 acc i = peakStep e (1/20) 500 acc i := by
  have hcond : peakCond (e.map (fun x => k * x)) (1/20) i ↔ peakCond e (1/20) i := by
    simp only [peakCond, getD_map_mul, gt_iff_lt]
    rw [mul_lt_mul_left hk, mul_lt_mul_left hk]
    constructor
    · rintro ⟨h1, h2, h3⟩
      exact ⟨h1, h2, (hth i).mpr h3⟩
    · rintro ⟨h1, h2, h3⟩
      exact ⟨h1, h2, (hth i).mp h3⟩
  unfold peakStep
  rw [if_congr hcond rfl rfl]

lemma detectPeaks_map_mul (e : List ℚ) (k : ℚ) (hk : 0 < k)
    (hth : ∀ i, ((1:ℚ)/20 < e.getD i 0 ↔ (1:ℚ)/20 < k * e.getD i 0)) :
    detectPeaks (e.map (fun x => k * x)) (1/20) 500 = detectPeaks e (1/20) 500 := by
  unfold detectPeaks
  rw [List.length_map]
  have hfold : ∀ (L : List ℕ) (acc : List ℕ),
      L.foldl (peakStep (e.map (fun x => k * x)) (1/20) 500) acc
        = L.foldl (peakStep e (1/20) 500) acc := by
    intro L
    induction L with
    | nil => intro acc; rfl
    | cons a L ih =>
      intro acc
      rw [List.foldl_cons, List.foldl_cons, peakStep_map_mul e k hk hth, ih]
  exact hfold _ _

lemma smoothFrom_map_mul (k : ℚ) (l : List ℚ) :
    ∀ p, smoothFrom (k * p) (l.map (fun x => k * x)) = (smoothFrom p l).map (fun x => k * x) := by
  induction l with
  | nil => intro p; simp [smoothFrom]
  | cons x xs ih =>
    intro p
    have harith : 1/10 * (k * x) + 9/10 * (k * p) = k * (1/10 * x + 9/10 * p) := by ring
    simp only [List.map_cons, smoothFrom, harith, ih]

lemma rectify_map_mul (k : ℚ) (hk : 0 ≤ k) (s : List ℚ) :
    rectify (s.map (fun x => k * x)) = (rectify s).map (fun x => k * x) := by
  unfold rectify
  rw [List.map_map, List.map_map]
  congr 1
  funext x
  simp [Function.comp, abs_mul, abs_of_nonneg hk]

lemma envelope_map_mul (k : ℚ) (hk : 0 ≤ k) (s : List ℚ) :
    envelope (s.map (fun x => k * x)) = (envelope s).map (fun x => k * x) := by
  cases s with
  | nil => simp [envelope, rectify]
  | cons x xs =>
    have h1 : rectify ((x :: xs).map (fun x => k * x)) =
        (k * |x|) :: (rectify xs).map (fun x => k * x) := by
      rw [rectify_map_mul k hk]
      simp [rectify, List.map_cons]
    have h2 : rectify (x :: xs) = |x| :: rectify xs := rfl
    unfold envelope
    rw [h1, h2]
    simp only [List.map_cons]
    rw [smoothFrom_map_mul]

/-- C3 (amended): scaling the mono input by k > 0 leaves the detected peak set
unchanged — and the reported BPM with it — provided the scaling does not move
any envelope value across the 0.05 threshold, i.e. e[i] > T iff k·e[i] > T for
all i. (The spec's premise k ≤ 1/max(|s|) with k·max(e) > T is weaker and does
not suffice; see the counterexample.) -/
theorem c3_scaleInvariance (s : List ℚ) (k : ℚ) (hk : 0 < k)
    (hth : ∀ i, i < (envelope s).length →
      ((1:ℚ)/20 < (envelope s).getD i 0 ↔ (1:ℚ)/20 < k * (envelope s).getD i 0)) :
    detectPeaks (envelope (s.map (fun x => k * x))) (1/20) 500
        = detectPeaks (envelope s) (1/20) 500
    ∧ ∀ R : ℕ, pipelineBpm (s.map (fun x => k * x)) 1 R = pipelineBpm s 1 R := by
  have hth' : ∀ i, ((1:ℚ)/20 < (envelope s).getD i 0 ↔ (1:ℚ)/20 < k * (envelope s).getD i 0) := by
    intro i
    by_cases hi : i < (envelope s).length
    · exact hth i hi
    · rw [List.getD_eq_default _ _ (le_of_not_lt hi)]
      norm_num
  have hpk : detectPeaks (envelope (s.map (fun x => k * x))) (1/20) 500
      = detectPeaks (envelope s) (1/20) 500 := by
    rw [envelope_map_mul k hk.le, detectPeaks_map_mul _ k hk hth']
  refine ⟨hpk, fun R => ?_⟩
  have hm : ∀ t : List ℚ, monoMix t 1 = t := by
    intro t
    simp [monoMix]
  unfold pipelineBpm
  rw [hm, hm, hpk]

/-- C3 (counterexample): with s = [0, 1, 0, 0, 0.7, 0] and k = 1/2 the claim's
premises hold — k is positive, k ≤ 1/max(|s|) = 1, and k·max(e) = 0.07145
exceeds T = 0.05 — yet scaling moves the first peak below the threshold: the
peak set changes from [1] to [4]. -/
theorem c3_claimFalse :
    (0:ℚ) < 1/2
    ∧ (1:ℚ)/2 ≤ 1 / maxAbs [0, 1, 0, 0, 7/10, 0]
    ∧ (1:ℚ)/20 < (1/2) * maxEnv [0, 1, 0, 0, 7/10, 0]
    ∧ detectPeaks (envelope (([0, 1, 0, 0, 7/10, 0] : List ℚ).map (fun x => (1/2 : ℚ) * x)))
          (1/20) 500
        ≠ detectPeaks (envelope ([0, 1, 0, 0, 7/10, 0] : List ℚ)) (1/20) 500 := by
  refine ⟨by norm_num, ?_, ?_, ?_⟩
  · norm_num [maxAbs, abs_of_nonneg, max_def]
  · norm_num [maxEnv, envelope, rectify, smoothFrom, abs_of_nonneg, max_def]
  · have h1 : detectPeaks (envelope ([0, 1, 0, 0, 7/10, 0] : List ℚ)) (1/20) 500 = [1] := by
      norm_num [envelope, rectify, smoothFrom, abs_of_nonneg, detectPeaks, peakStep, peakCond,
        List.range']
    have h2 : detectPeaks (envelope (([0, 1, 0, 0, 7/10, 0] : List ℚ).map
        (fun x => (1/2 : ℚ) * x))) (1/20) 500 = [4] := by
      norm_num [envelope, rectify, smoothFrom, abs_of_nonneg, detectPeaks, peakStep, peakCond,
        List.range']
    rw [h1, h2]
    simp

/-! ### Concrete witnesses -/

/-- Witness for C1 at P = [0, 600], R = 2, with a one-sample mono file. -/
theorem c1_witness :
    (0 < 2 ∧ 2 ≤ ([0, 600] : List ℕ).length)
    ∧ (calculateBpm [0, 600] 2 = 60 / specMeanInterval [0, 600] 2
      ∧ pipelineBpm [0] 1 44100
          = calculateBpm (detectPeaks (envelope (monoMix [0] 1)) (1/20) 500) 44100 / 35) :=
  ⟨⟨by norm_num, by norm_num⟩,
    c1_bpmFormula [0, 600] 2 (by norm_num) (by norm_num) [0] 1 44100⟩

/-- Witness for C2 on the envelope [0, 1, 0]. -/
theorem c2_witness :
    1 ≤ ([0, 1, 0] : List ℚ).length
    ∧ (detectPeaks ([0, 1, 0] : List ℚ) (1/20) 500 = scanSpec ([0, 1, 0] : List ℚ) (1/20) 500
      ∧ (∀ p ∈ detectPeaks ([0, 1, 0] : List ℚ) (1/20) 500,
          1 ≤ p ∧ p + 1 ≤ ([0, 1, 0] : List ℚ).length - 1
          ∧ ([0, 1, 0] : List ℚ).getD p 0 > ([0, 1, 0] : List ℚ).getD (p - 1) 0
          ∧ ([0, 1, 0] : List ℚ).getD p 0 > ([0, 1, 0] : List ℚ).getD (p + 1) 0
          ∧ ([0, 1, 0] : List ℚ).getD p 0 > 1/20)
      ∧ List.Chain' (fun a b => a < b ∧ 500 < b - a)
          (detectPeaks ([0, 1, 0] : List ℚ) (1/20) 500)) :=
  ⟨by norm_num, c2_detectPeaks [0, 1, 0] (by norm_num)⟩

/-- Witness for C3 (amended) at s = [0, 1, 0], k = 2. -/
theorem c3_witness :
    ((0:ℚ) < 2
      ∧ ∀ i, i < (envelope ([0, 1, 0] : List ℚ)).length →
          ((1:ℚ)/20 < (envelope ([0, 1, 0] : List ℚ)).getD i 0
            ↔ (1:ℚ)/20 < 2 * (envelope ([0, 1, 0] : List ℚ)).getD i 0))
    ∧ (detectPeaks (envelope (([0, 1, 0] : List ℚ).map (fun x => (2 : ℚ) * x))) (1/20) 500
          = detectPeaks (envelope ([0, 1, 0] : List ℚ)) (1/20) 500
      ∧ ∀ R : ℕ, pipelineBpm (([0, 1, 0] : List ℚ).map (fun x => (2 : ℚ) * x)) 1 R
          = pipelineBpm ([0, 1, 0] : List ℚ) 1 R) := by
  have he : envelope ([0, 1, 0] : List ℚ) = [0, 1/10, 9/100] := by
    norm_num [envelope, rectify, smoothFrom]
  have hth : ∀ i, i < (envelope ([0, 1, 0] : List ℚ)).length →
      ((1:ℚ)/20 < (envelope ([0, 1, 0] : List ℚ)).getD i 0
        ↔ (1:ℚ)/20 < 2 * (envelope ([0, 1, 0] : List ℚ)).getD i 0) := by
    rw [he]
    intro i hi
    simp only [List.length_cons, List.length_nil] at hi
    interval_cases i <;>
      norm_num [List.getD_cons_zero, List.getD_cons_succ]
  exact ⟨⟨by norm_num, hth⟩, c3_scaleInvariance [0, 1, 0] 2 (by norm_num) hth⟩

/-- Witness for C4 on a 4-sample stereo buffer. -/
theorem c4_witness :
    2 ≤ 2
    ∧ ((monoMix [1, 2, 3, 4] 2).length = ([1, 2, 3, 4] : List ℚ).length / 2
      ∧ ∀ i, i < ([1, 2, 3, 4] : List ℚ).length / 2 →
          (monoMix [1, 2, 3, 4] 2).getD i 0
            = (([1, 2, 3, 4] : List ℚ).getD (i * 2) 0
                + ([1, 2, 3, 4] : List ℚ).getD (i * 2 + 1) 0) / 2) :=
  ⟨by norm_num, (c4_monoMix [1, 2, 3, 4] 2).2 (by norm_num)⟩

/-- Witness for C5 at s = [1, -2]. -/
theorem c5_witness :
    1 ≤ ([1, -2] : List ℚ).length
    ∧ ((envelope ([1, -2] : List ℚ)).length = ([1, -2] : List ℚ).length
      ∧ (envelope ([1, -2] : List ℚ)).getD 0 0 = |([1, -2] : List ℚ).getD 0 0|
      ∧ (∀ i, 1 ≤ i → i < ([1, -2] : List ℚ).length →
          (envelope ([1, -2] : List ℚ)).getD i 0
            = 1/10 * |([1, -2] : List ℚ).getD i 0|
              + 9/10 * (envelope ([1, -2] : List ℚ)).getD (i - 1) 0)
      ∧ (∀ i, 0 ≤ (envelope ([1, -2] : List ℚ)).getD i 0)) :=
  ⟨by norm_num, c5_envelope [1, -2] (by norm_num)⟩

/-- Witness for C6: a healthy one-frame mono file reaches the pipeline. -/
theorem c6_witness :
    ((DecodeEnv.mk true true 1 1 44100 1 [0]).frames ≠ 0
      ∧ (DecodeEnv.mk true true 1 1 44100 1 [0]).channels ≠ 0)
    ∧ analyze (DecodeEnv.mk true true 1 1 44100 1 [0]) = .ok (pipelineBpm [0] 1 44100) :=
  ⟨⟨by decide, by decide⟩,
    (c6_analyze (DecodeEnv.mk true true 1 1 44100 1 [0])).2.2.2.2.1
      rfl rfl (by decide) (by decide) rfl⟩

/-- Witness for C7 with one peak and a one-sample file. -/
theorem c7_witness :
    (([5] : List ℕ).length < 2
      ∧ (detectPeaks (envelope (monoMix [0] 1)) (1/20) 500).length < 2)
    ∧ (calculateBpm [5] 3 = 0 ∧ pipelineBpm [0] 1 44100 = 0) :=
  ⟨⟨by norm_num, by norm_num [detectPeaks, monoMix, envelope, rectify, smoothFrom]⟩,
    c7_fewPeaks [5] 3 (by norm_num) [0] 1 44100
      (by norm_num [detectPeaks, monoMix, envelope, rectify, smoothFrom])⟩

/-- Witness for C8 at P = [0, 600], R = 2. -/
theorem c8_witness :
    (0 < 2 ∧ 2 ≤ ([0, 600] : List ℕ).length
      ∧ List.Chain' (fun a b => a < b) ([0, 600] : List ℕ))
    ∧ (((2 : ℕ) : ℚ) ≠ 0
      ∧ ((([0, 600] : List ℕ).length - 1 : ℕ) : ℚ) ≠ 0
      ∧ 0 < avgInterval [0, 600] 2
      ∧ calculateBpm [0, 600] 2 = 60 / avgInterval [0, 600] 2) :=
  ⟨⟨by norm_num, by norm_num, by norm_num [List.chain'_cons]⟩,
    c8_noDivByZero [0, 600] 2 (by norm_num) (by norm_num) (by norm_num [List.chain'_cons])⟩

/-- Witness for C10: in-bounds accesses on a 3-sample envelope, no peaks from a
2-sample envelope, and a nonempty envelope from a valid 1-frame mono file. -/
theorem c10_witness :
    (1 - 1 < ([0, 0, 0] : List ℚ).length ∧ 1 < ([0, 0, 0] : List ℚ).length
      ∧ 1 + 1 < ([0, 0, 0] : List ℚ).length)
    ∧ detectPeaks ([0, 0] : List ℚ) (1/20) 500 = []
    ∧ 1 ≤ (envelope (monoMix [0] 1)).length :=
  ⟨c10_bounds.1 [0, 0, 0] 1 (by norm_num) (by norm_num) (by norm_num),
    c10_bounds.2.1 [0, 0] (by norm_num),
    c10_bounds.2.2 [0] 1 1 (by norm_num) (by norm_num) (by norm_num)⟩

end DJ
